import Mathlib

/-!
Verification of `ckanext/discovery/plugins/search_suggestions/model.py`.

The module stores submitted search queries in one table
(`discovery_searchquery`, columns `id` and `q`) and answers suggestion
requests with a PostgreSQL full-text query:

* `SearchQuery.create` appends one row and commits;
* `SearchQuery.suggest` joins the raw terms with `' | '`, feeds the result to
  `to_tsquery`, groups matching rows by `q` with their counts, orders by
  `ts_rank` descending then count descending, drops rows whose rank is below
  `min_score` and truncates to `limit` rows;
* `create_tables` creates the table if absent and drops/recreates the GIN
  text-search index for the configured language;
* `_get_language` returns the configured language or `'english'`.

The locale-specific parts of PostgreSQL (the `to_tsvector` lexizer and the
`ts_rank` scoring function) are external to the repository and are modelled
abstractly by a `TsSemantics` structure.  The parts of PostgreSQL whose exact
behaviour the code depends on — the `to_tsquery` syntax (operators `& | ! ( )`
and `:`, whitespace separation, syntax errors on empty or malformed input),
the `@@` match operator, the rejection of a negative `LIMIT` — are modelled
concretely below.
-/

/-- A parsed PostgreSQL `tsquery`: atoms (single lexemes) combined with
`&`, `|` and `!`. -/
inductive TsQuery where
  | atom : String → TsQuery
  | and : TsQuery → TsQuery → TsQuery
  | or : TsQuery → TsQuery → TsQuery
  | not : TsQuery → TsQuery
deriving DecidableEq, Repr

/-- Lexical tokens of the `tsquery` input syntax. -/
inductive Tok where
  | word : String → Tok
  | amp | pipe | bang | lpar | rpar | colon
deriving DecidableEq, Repr

/-- Characters with special meaning to the `tsquery` syntax. -/
def isSpecial (c : Char) : Bool :=
  c = '&' || c = '|' || c = '!' || c = '(' || c = ')' || c = ':'

/-- Whitespace separators of the `tsquery` syntax. -/
def isWs (c : Char) : Bool :=
  c = ' ' || c = '\t' || c = '\n' || c = '\r'

/-- Characters that may appear inside a lexeme. -/
def isWordChar (c : Char) : Bool := !(isSpecial c || isWs c)

/-- Emit the accumulated word characters (in reverse order) as a token,
if any. -/
def flushTok (acc : List Char) (rest : List Tok) : List Tok :=
  match acc with
  | [] => rest
  | _ => .word (String.mk acc.reverse) :: rest

/-- The token produced by a single special character (whitespace produces
none). -/
def charTok (c : Char) : List Tok :=
  if c = '&' then [.amp]
  else if c = '|' then [.pipe]
  else if c = '!' then [.bang]
  else if c = '(' then [.lpar]
  else if c = ')' then [.rpar]
  else if c = ':' then [.colon]
  else []

/-- Tokenizer for the `tsquery` syntax, accumulating the current word. -/
def tokenizeAux (acc : List Char) : List Char → List Tok
  | [] => flushTok acc []
  | c :: cs =>
    if isWordChar c then tokenizeAux (c :: acc) cs
    else flushTok acc (charTok c ++ tokenizeAux [] cs)

/-- Tokenize a `tsquery` input string (as a character list). -/
def tokenize (l : List Char) : List Tok := tokenizeAux [] l

/-- Grammar levels of the recursive-descent `tsquery` parser:
`|`-expressions, `&`-expressions, `!`-expressions and primaries. -/
inductive PMode where
  | por | pand | pnot | pprim
deriving DecidableEq

/-- Fuel-indexed recursive-descent parser for the `tsquery` grammar.
`&` binds tighter than `|`, `!` tighter still, parentheses group.  A `:`
token is never consumed, so (as in PostgreSQL for a bare `:`) it makes the
parse fail at top level.  Returns the parsed query and the unconsumed
tokens. -/
def parseP : Nat → PMode → List Tok → Except Unit (TsQuery × List Tok)
  | 0, _, _ => .error ()
  | f + 1, .por, ts => do
    let (a, r) ← parseP f .pand ts
    match r with
    | .pipe :: r' => do
      let (b, r'') ← parseP f .por r'
      pure (.or a b, r'')
    | _ => pure (a, r)
  | f + 1, .pand, ts => do
    let (a, r) ← parseP f .pnot ts
    match r with
    | .amp :: r' => do
      let (b, r'') ← parseP f .pand r'
      pure (.and a b, r'')
    | _ => pure (a, r)
  | f + 1, .pnot, ts =>
    match ts with
    | .bang :: r => do
      let (a, r') ← parseP f .pnot r
      pure (.not a, r')
    | _ => parseP f .pprim ts
  | f + 1, .pprim, ts =>
    match ts with
    | .word w :: r => pure (.atom w, r)
    | .lpar :: r => do
      let (a, r') ← parseP f .por r
      match r' with
      | .rpar :: r'' => pure (a, r'')
      | _ => .error ()
    | _ => .error ()

/-- `to_tsquery`: parse a query string, failing (as PostgreSQL does with a
syntax error) on empty input, adjacent lexemes, dangling operators or any
unconsumed token. -/
def to_tsquery (s : String) : Except Unit TsQuery :=
  let ts := tokenize s.toList
  match parseP (4 * ts.length + 4) .por ts with
  | .ok (q, []) => .ok q
  | _ => .error ()

/-- The `@@` match operator: does a document (as its list of lexemes)
satisfy a `tsquery`? -/
def tsMatch (v : List String) : TsQuery → Bool
  | .atom l => decide (l ∈ v)
  | .and a b => tsMatch v a && tsMatch v b
  | .or a b => tsMatch v a || tsMatch v b
  | .not a => !tsMatch v a

/-- The locale-dependent text-search semantics that PostgreSQL supplies and
the repository only configures: `tok` is `to_tsvector` (the list of lexemes
of a text) and `rankFn` is `ts_rank` (the relevance score of a lexized text
against a query). -/
structure TsSemantics where
  tok : String → List String
  rankFn : List String → TsQuery → ℚ

/-- The persistent state owned by the module: the rows of
`discovery_searchquery` as `(id, q)` pairs, the next surrogate id, whether
the table has been created, and the language of the GIN text-search index
when it exists. -/
structure Store where
  records : List (Nat × String)
  nextId : Nat
  tableCreated : Bool
  tsIndex : Option String
deriving DecidableEq

deriving instance DecidableEq for Except

/-- Errors surfaced by a `suggest` call: `validation` would be a rejection
of malformed input before any statement is executed (the code has no such
path), `persistence` is a failure raised by the storage engine while
executing the statement. -/
inductive SuggestError where
  | validation
  | persistence
deriving DecidableEq, Repr

/-- `_get_language()`: the configuration value
`ckanext.discovery.search_suggestions.language`, defaulting to
`'english'`. -/
def _get_language (cfg : Option String) : String := cfg.getD "english"

/-- `' | '.join(terms)` from `SearchQuery.suggest`. -/
def joinTerms : List String → String
  | [] => ""
  | [t] => t
  | t :: ts => t ++ " | " ++ joinTerms ts

/-- `COUNT(q) ... GROUP BY q`: the number of stored rows whose `q` column
equals the given text. -/
def countOf (store : Store) (q : String) : Nat :=
  (store.records.filter (fun r => decide (r.2 = q))).length

/-- One row of the inner grouped/ranked subquery of `suggest`: a distinct
text with its `ts_rank` score and its occurrence count. -/
structure Suggestion where
  q : String
  rank : ℚ
  count : Nat
deriving DecidableEq

/-- The `ORDER BY rank DESC, count DESC` ordering of `suggest`'s inner
query. -/
def sugOrder (a b : Suggestion) : Prop :=
  b.rank < a.rank ∨ (a.rank = b.rank ∧ b.count ≤ a.count)

instance : DecidableRel sugOrder := fun a b =>
  inferInstanceAs (Decidable (b.rank < a.rank ∨ (a.rank = b.rank ∧ b.count ≤ a.count)))

instance : IsTotal Suggestion sugOrder :=
  ⟨by
    intro a b
    rcases lt_trichotomy a.rank b.rank with h | h | h
    · exact Or.inr (Or.inl h)
    · rcases le_total b.count a.count with hc | hc
      · exact Or.inl (Or.inr ⟨h, hc⟩)
      · exact Or.inr (Or.inr ⟨h.symm, hc⟩)
    · exact Or.inl (Or.inl h)⟩

instance : IsTrans Suggestion sugOrder :=
  ⟨by
    intro a b c hab hbc
    rcases hab with h1 | ⟨h1, h1'⟩ <;> rcases hbc with h2 | ⟨h2, h2'⟩
    · exact Or.inl (h2.trans h1)
    · exact Or.inl (h2 ▸ h1)
    · exact Or.inl (h1 ▸ h2)
    · exact Or.inr ⟨h1.trans h2, h2'.trans h1'⟩⟩

/-- `ts_rank` of a stored text against the query, per the locale
semantics. -/
def rankOf (env : TsSemantics) (Q : TsQuery) (q : String) : ℚ :=
  env.rankFn (env.tok q) Q

/-- The innermost subquery of `suggest`: the distinct `q` values whose
`to_tsvector` matches the query (`WHERE ... @@ ... GROUP BY q`). -/
def matchedTexts (env : TsSemantics) (store : Store) (Q : TsQuery) : List String :=
  ((store.records.map Prod.snd).filter (fun q => tsMatch (env.tok q) Q)).dedup

/-- Build the row of the grouped subquery for one distinct text. -/
def mkSuggestion (env : TsSemantics) (store : Store) (Q : TsQuery) (q : String) : Suggestion :=
  ⟨q, rankOf env Q q, countOf store q⟩

/-- The middle subquery of `suggest`: the grouped rows ordered by rank
descending, ties broken by count descending. -/
def rankedEntries (env : TsSemantics) (store : Store) (Q : TsQuery) : List Suggestion :=
  List.insertionSort sugOrder ((matchedTexts env store Q).map (mkSuggestion env store Q))

/-- The outer query of `suggest`: keep rows with `rank >= :min_rank`,
truncate to `:limit` rows, return the `q` column. -/
def suggestList (env : TsSemantics) (store : Store) (Q : TsQuery) (limit : Int)
    (min_score : ℚ) : List String :=
  ((((rankedEntries env store Q).filter (fun e => decide (min_score ≤ e.rank))).take
    limit.toNat).map Suggestion.q)

/-- `SearchQuery.suggest(terms, limit, min_score)`.  The terms are joined
with `' | '` and handed, unescaped, to `to_tsquery`; a syntax error there,
or a negative `LIMIT`, is raised by the storage engine while the statement
executes. -/
def SearchQuery.suggest (env : TsSemantics) (store : Store) (terms : List String)
    (limit : Int) (min_score : ℚ) : Except SuggestError (List String) :=
  match to_tsquery (joinTerms terms) with
  | .error _ => .error .persistence
  | .ok Q =>
    if limit < 0 then .error .persistence
    else .ok (suggestList env store Q limit min_score)

/-- `SearchQuery.suggest` together with the store it leaves behind: the
executed statement is a single `SELECT`, so the store component is the
input store. -/
def SearchQuery.suggestOp (env : TsSemantics) (store : Store) (terms : List String)
    (limit : Int) (min_score : ℚ) : Except SuggestError (List String) × Store :=
  (SearchQuery.suggest env store terms limit min_score, store)

/-- `SearchQuery.create(q)`: insert one row with a fresh id and commit,
returning the new store and the created row. -/
def SearchQuery.create (s : Store) (q : String) : Store × (Nat × String) :=
  ({ s with records := s.records ++ [(s.nextId, q)], nextId := s.nextId + 1 },
   (s.nextId, q))

/-- `create_tables()`: create the table if absent, then drop and recreate
the GIN text-search index for the currently configured language. -/
def create_tables (cfg : Option String) (s : Store) : Store :=
  { s with tableCreated := true, tsIndex := some (_get_language cfg) }

/-- A term that is a single plain lexeme: non-empty and free of whitespace
and of characters special to the `tsquery` syntax. -/
def plainWord (t : String) : Bool := !t.data.isEmpty && t.data.all isWordChar

/-- The token list produced by tokenizing `' | '.join` of plain terms:
words separated by `|` tokens. -/
def interleaveToks : String → List String → List Tok
  | t, [] => [.word t]
  | t, u :: us => .word t :: .pipe :: interleaveToks u us

/-- The OR-combination of the supplied terms as a `tsquery`. -/
def orChain : String → List String → TsQuery
  | t, [] => .atom t
  | t, u :: us => .or (.atom t) (orChain u us)

/-- Split a character list into whitespace-separated words (helper for the
concrete example locale). -/
def splitWordsAux (acc : List Char) : List Char → List String
  | [] => if acc.isEmpty then [] else [String.mk acc.reverse]
  | c :: cs =>
    if c = ' ' then
      if acc.isEmpty then splitWordsAux [] cs
      else String.mk acc.reverse :: splitWordsAux [] cs
    else splitWordsAux (c :: acc) cs

/-- A concrete instance of `to_tsvector` in the spirit of PostgreSQL's
`simple` configuration: split the text on spaces. -/
def simpleTok (s : String) : List String := splitWordsAux [] s.toList

/-- The number of query atoms whose lexeme occurs in the document. -/
def atomsIn (v : List String) : TsQuery → Nat
  | .atom l => if l ∈ v then 1 else 0
  | .and a b => atomsIn v a + atomsIn v b
  | .or a b => atomsIn v a + atomsIn v b
  | .not _ => 0

/-- A concrete instance of `ts_rank`: the number of matched query atoms. -/
def simpleRank (v : List String) (Q : TsQuery) : ℚ := (atomsIn v Q : ℚ)

/-- A concrete locale semantics used to instantiate the abstract
theorems. -/
def simpleEnv : TsSemantics := ⟨simpleTok, simpleRank⟩

/-- A concrete store: `"cat dog"` logged twice, `"cat fish"` once. -/
def exStore : Store :=
  ⟨[(1, "cat dog"), (2, "cat dog"), (3, "cat fish")], 4, true, some "english"⟩

/-- A concrete store with a single record `"x a y b"`. -/
def exStore2 : Store := ⟨[(1, "x a y b")], 2, true, some "english"⟩

/-- A concrete store with a single record `"a b"`. -/
def exStore6 : Store := ⟨[(1, "a b")], 2, true, some "english"⟩

theorem flushTok_of_ne_nil {acc : List Char} (h : acc ≠ []) (rest : List Tok) :
    flushTok acc rest = .word (String.mk acc.reverse) :: rest := by
  cases acc with
  | nil => exact absurd rfl h
  | cons c cs => rfl

theorem tokenizeAux_words {w : List Char} (hw : ∀ c ∈ w, isWordChar c = true) :
    ∀ acc l, tokenizeAux acc (w ++ l) = tokenizeAux (w.reverse ++ acc) l := by
  induction w with
  | nil => intro acc l; simp
  | cons c cs ih =>
    intro acc l
    have hc : isWordChar c = true := hw c (List.mem_cons_self c cs)
    show tokenizeAux acc (c :: (cs ++ l)) = _
    rw [tokenizeAux, if_pos hc, ih (fun d hd => hw d (List.mem_cons_of_mem c hd))]
    rw [List.reverse_cons, List.append_assoc, List.singleton_append]

theorem tokenizeAux_space (acc : List Char) (l : List Char) :
    tokenizeAux acc (' ' :: l) = flushTok acc (tokenizeAux [] l) := rfl

theorem tokenizeAux_bar (l : List Char) :
    tokenizeAux [] ('|' :: l) = .pipe :: tokenizeAux [] l := rfl

theorem string_mk_data (s : String) : String.mk s.data = s := rfl

theorem plainWord_data {t : String} (h : plainWord t = true) :
    t.data ≠ [] ∧ ∀ c ∈ t.data, isWordChar c = true := by
  unfold plainWord at h
  rw [Bool.and_eq_true, List.all_eq_true, Bool.not_eq_true'] at h
  exact ⟨fun he => by simp [he] at h, h.2⟩

theorem tokenize_join :
    ∀ (ts : List String) (t : String), plainWord t = true →
      (∀ u ∈ ts, plainWord u = true) →
      tokenize (joinTerms (t :: ts)).toList = interleaveToks t ts := by
  intro ts
  induction ts with
  | nil =>
    intro t ht _
    obtain ⟨hne, hall⟩ := plainWord_data ht
    show tokenizeAux [] (joinTerms [t]).data = _
    have : (joinTerms [t]).data = t.data ++ [] := by simp [joinTerms]
    rw [this, tokenizeAux_words hall [] []]
    show flushTok (t.data.reverse ++ []) [] = _
    rw [List.append_nil,
      flushTok_of_ne_nil (by simpa using hne), List.reverse_reverse, string_mk_data]
    rfl
  | cons u us ih =>
    intro t ht hts
    obtain ⟨hne, hall⟩ := plainWord_data ht
    show tokenizeAux [] (joinTerms (t :: u :: us)).data = _
    have hd : (joinTerms (t :: u :: us)).data
        = t.data ++ (' ' :: '|' :: ' ' :: (joinTerms (u :: us)).data) := by
      show (t ++ " | " ++ joinTerms (u :: us)).data = _
      simp
    rw [hd, tokenizeAux_words hall [] _, List.append_nil, tokenizeAux_space,
      tokenizeAux_bar, tokenizeAux_space]
    have hrec : tokenizeAux [] (joinTerms (u :: us)).data = interleaveToks u us :=
      ih u (hts u (List.mem_cons_self u us)) (fun v hv => hts v (List.mem_cons_of_mem u hv))
    rw [hrec, flushTok_of_ne_nil (by simpa using hne), List.reverse_reverse, string_mk_data]
    rfl

theorem interleaveToks_length (ts : List String) :
    ∀ t, (interleaveToks t ts).length = 2 * ts.length + 1 := by
  induction ts with
  | nil => intro t; rfl
  | cons u us ih =>
    intro t
    show (Tok.word t :: Tok.pipe :: interleaveToks u us).length = _
    simp [ih u]
    omega

theorem parseP_word_stop (f : Nat) (t : String) (rest : List Tok)
    (h : rest = [] ∨ ∃ r', rest = .pipe :: r') :
    parseP (f + 3) .pand (.word t :: rest) = .ok (.atom t, rest) := by
  rcases h with rfl | ⟨r', rfl⟩ <;> rfl

theorem parseP_orChain :
    ∀ (ts : List String) (t : String) (fuel : Nat), 2 * ts.length + 4 ≤ fuel →
      parseP fuel .por (interleaveToks t ts) = .ok (orChain t ts, []) := by
  intro ts
  induction ts with
  | nil =>
    intro t fuel hf
    obtain ⟨f, rfl⟩ : ∃ f, fuel = f + 4 := ⟨fuel - 4, by omega⟩
    show parseP ((f + 3) + 1) .por [Tok.word t] = _
    rw [parseP, parseP_word_stop f t [] (Or.inl rfl)]
    rfl
  | cons u us ih =>
    intro t fuel hf
    obtain ⟨f, rfl⟩ : ∃ f, fuel = f + 4 := ⟨fuel - 4, by omega⟩
    show parseP ((f + 3) + 1) .por
        (Tok.word t :: Tok.pipe :: interleaveToks u us) = _
    rw [parseP, parseP_word_stop f t _ (Or.inr ⟨_, rfl⟩)]
    show (do
      let (b, r'') ← parseP (f + 3) .por (interleaveToks u us)
      pure (TsQuery.or (.atom t) b, r'')) = _
    rw [ih u (f + 3) (by simp [List.length_cons] at hf ⊢; omega)]
    rfl

theorem to_tsquery_join (t : String) (ts : List String) (ht : plainWord t = true)
    (hts : ∀ u ∈ ts, plainWord u = true) :
    to_tsquery (joinTerms (t :: ts)) = .ok (orChain t ts) := by
  unfold to_tsquery
  rw [tokenize_join ts t ht hts]
  have hp := parseP_orChain ts t (4 * (interleaveToks t ts).length + 4)
    (by rw [interleaveToks_length]; omega)
  simp only [hp]

theorem tsMatch_orChain (v : List String) :
    ∀ (ts : List String) (t : String),
      tsMatch v (orChain t ts) = true ↔ ∃ x ∈ t :: ts, x ∈ v := by
  intro ts
  induction ts with
  | nil => intro t; simp [orChain, tsMatch]
  | cons u us ih =>
    intro t
    show (tsMatch v (.atom t) || tsMatch v (orChain u us)) = true ↔ _
    rw [Bool.or_eq_true, ih u]
    simp [tsMatch]

theorem rankedEntries_sorted (env : TsSemantics) (store : Store) (Q : TsQuery) :
    (rankedEntries env store Q).Pairwise sugOrder :=
  List.sorted_insertionSort sugOrder _

theorem rankedEntries_perm (env : TsSemantics) (store : Store) (Q : TsQuery) :
    List.Perm (rankedEntries env store Q)
      ((matchedTexts env store Q).map (mkSuggestion env store Q)) :=
  List.perm_insertionSort _ _

theorem mem_rankedEntries {env : TsSemantics} {store : Store} {Q : TsQuery} {e : Suggestion} :
    e ∈ rankedEntries env store Q ↔
      ∃ q ∈ matchedTexts env store Q, mkSuggestion env store Q q = e := by
  rw [(rankedEntries_perm env store Q).mem_iff, List.mem_map]

theorem mem_matchedTexts {env : TsSemantics} {store : Store} {Q : TsQuery} {q : String} :
    q ∈ matchedTexts env store Q ↔
      (∃ r ∈ store.records, r.2 = q) ∧ tsMatch (env.tok q) Q = true := by
  unfold matchedTexts
  rw [List.mem_dedup, List.mem_filter, List.mem_map]

theorem suggest_ok_elim {env : TsSemantics} {store : Store} {terms : List String}
    {limit : Int} {min_score : ℚ} {l : List String}
    (h : SearchQuery.suggest env store terms limit min_score = .ok l) :
    ∃ Q, to_tsquery (joinTerms terms) = .ok Q ∧ 0 ≤ limit ∧
      l = suggestList env store Q limit min_score := by
  unfold SearchQuery.suggest at h
  split at h
  · cases h
  · rename_i Q hQ
    split at h
    · cases h
    · rename_i hl
      injection h with h
      exact ⟨Q, hQ, by omega, h.symm⟩

theorem mem_suggestList_elim {env : TsSemantics} {store : Store} {Q : TsQuery}
    {limit : Int} {min_score : ℚ} {q : String}
    (h : q ∈ suggestList env store Q limit min_score) :
    q ∈ matchedTexts env store Q ∧ min_score ≤ rankOf env Q q := by
  unfold suggestList at h
  obtain ⟨e, he, rfl⟩ := List.mem_map.mp h
  have he' := List.mem_of_mem_take he
  rw [List.mem_filter] at he'
  obtain ⟨hmem, hsc⟩ := he'
  obtain ⟨q0, hq0, rfl⟩ := mem_rankedEntries.mp hmem
  rw [decide_eq_true_iff] at hsc
  exact ⟨hq0, hsc⟩

theorem mem_rankedEntries_fields {env : TsSemantics} {store : Store} {Q : TsQuery}
    {e : Suggestion} (h : e ∈ rankedEntries env store Q) :
    e.rank = rankOf env Q e.q ∧ e.count = countOf store e.q := by
  obtain ⟨q0, _, rfl⟩ := mem_rankedEntries.mp h
  exact ⟨rfl, rfl⟩

/-- C1: for every store state, every list of terms and every limit and
min_score, whenever `SearchQuery.suggest` returns a list, the list is
sorted descending by the computed relevance rank of each entry, and entries
of equal rank appear in descending order of occurrence count. -/
theorem suggest_sorted_by_rank_then_count (env : TsSemantics) (store : Store)
    (terms : List String) (limit : Int) (min_score : ℚ) (Q : TsQuery) (l : List String)
    (hQ : to_tsquery (joinTerms terms) = .ok Q)
    (h : SearchQuery.suggest env store terms limit min_score = .ok l) :
    l.Pairwise (fun a b =>
      rankOf env Q b < rankOf env Q a ∨
        (rankOf env Q a = rankOf env Q b ∧ countOf store b ≤ countOf store a)) := by
  obtain ⟨Q', hQ', _, rfl⟩ := suggest_ok_elim h
  rw [hQ] at hQ'
  injection hQ' with hQ'
  subst hQ'
  unfold suggestList
  rw [List.pairwise_map]
  have hf : ((rankedEntries env store Q).filter
      (fun e => decide (min_score ≤ e.rank))).Pairwise sugOrder :=
    List.Pairwise.sublist (List.filter_sublist _) (rankedEntries_sorted env store Q)
  have ht := List.Pairwise.sublist (List.take_sublist limit.toNat _) hf
  refine ht.imp_of_mem ?_
  intro a b ha hb hab
  have ha' : a ∈ rankedEntries env store Q :=
    (List.mem_filter.mp (List.mem_of_mem_take ha)).1
  have hb' : b ∈ rankedEntries env store Q :=
    (List.mem_filter.mp (List.mem_of_mem_take hb)).1
  obtain ⟨har, hac⟩ := mem_rankedEntries_fields ha'
  obtain ⟨hbr, hbc⟩ := mem_rankedEntries_fields hb'
  rcases hab with hr | ⟨hr, hc⟩
  · exact Or.inl (by rw [← har, ← hbr]; exact hr)
  · exact Or.inr ⟨by rw [← har, ← hbr]; exact hr, by rw [← hac, ← hbc]; exact hc⟩

theorem suggest_sorted_witness :
    List.Pairwise (fun a b =>
      rankOf simpleEnv (TsQuery.atom "cat") b < rankOf simpleEnv (TsQuery.atom "cat") a ∨
        (rankOf simpleEnv (TsQuery.atom "cat") a = rankOf simpleEnv (TsQuery.atom "cat") b ∧
          countOf exStore b ≤ countOf exStore a)) ["cat dog", "cat fish"] :=
  suggest_sorted_by_rank_then_count simpleEnv exStore ["cat"] 10 0 (TsQuery.atom "cat")
    ["cat dog", "cat fish"] rfl rfl

/-- C3: whenever `SearchQuery.suggest` returns a list, no returned entry has
computed rank strictly below `min_score`, and (retention of the boundary)
every matching stored text whose rank is at least `min_score` is returned
when the limit is the number of stored records. -/
theorem suggest_min_score_filter (env : TsSemantics) (store : Store)
    (terms : List String) (limit : Int) (min_score : ℚ) (Q : TsQuery) (l : List String)
    (hQ : to_tsquery (joinTerms terms) = .ok Q)
    (h : SearchQuery.suggest env store terms limit min_score = .ok l) :
    (∀ q ∈ l, min_score ≤ rankOf env Q q) ∧
      (∀ l₂, SearchQuery.suggest env store terms (Int.ofNat store.records.length) min_score
          = .ok l₂ →
        ∀ q, (∃ r ∈ store.records, r.2 = q) → tsMatch (env.tok q) Q = true →
          min_score ≤ rankOf env Q q → q ∈ l₂) := by
  obtain ⟨Q', hQ', _, rfl⟩ := suggest_ok_elim h
  rw [hQ] at hQ'
  injection hQ' with hQ'
  subst hQ'
  constructor
  · intro q hq
    exact (mem_suggestList_elim hq).2
  · intro l₂ h₂ q hq hmatch hrank
    obtain ⟨Q₂, hQ₂, _, rfl⟩ := suggest_ok_elim h₂
    rw [hQ] at hQ₂
    injection hQ₂ with hQ₂
    subst hQ₂
    unfold suggestList
    have hqm : q ∈ matchedTexts env store Q := mem_matchedTexts.mpr ⟨hq, hmatch⟩
    have hqe : mkSuggestion env store Q q ∈ rankedEntries env store Q :=
      mem_rankedEntries.mpr ⟨q, hqm, rfl⟩
    have hqf : mkSuggestion env store Q q ∈ (rankedEntries env store Q).filter
        (fun e => decide (min_score ≤ e.rank)) :=
      List.mem_filter.mpr ⟨hqe, by rw [decide_eq_true_iff]; exact hrank⟩
    have hlen : ((rankedEntries env store Q).filter
        (fun e => decide (min_score ≤ e.rank))).length
          ≤ (Int.ofNat store.records.length).toNat := by
      have hnat : (Int.ofNat store.records.length).toNat = store.records.length := rfl
      rw [hnat]
      calc ((rankedEntries env store Q).filter
            (fun e => decide (min_score ≤ e.rank))).length
          ≤ (rankedEntries env store Q).length := List.length_filter_le _ _
        _ = ((matchedTexts env store Q).map (mkSuggestion env store Q)).length :=
            (rankedEntries_perm env store Q).length_eq
        _ = (matchedTexts env store Q).length := by rw [List.length_map]
        _ ≤ ((store.records.map Prod.snd).filter
              (fun q0 => tsMatch (env.tok q0) Q)).length :=
            (List.dedup_sublist _).length_le
        _ ≤ (store.records.map Prod.snd).length := List.length_filter_le _ _
        _ = store.records.length := by rw [List.length_map]
    rw [List.take_of_length_le hlen]
    exact List.mem_map.mpr ⟨mkSuggestion env store Q q, hqf, rfl⟩

theorem suggest_min_score_witness :
    (1 : ℚ) ≤ rankOf simpleEnv (TsQuery.atom "cat") "cat dog" :=
  (suggest_min_score_filter simpleEnv exStore ["cat"] 10 1 (TsQuery.atom "cat")
    ["cat dog", "cat fish"] rfl rfl).1 "cat dog" (by decide)

/-- C2 counterexample: with the single term `"a & b"` the unescaped join
lets `&` act as the AND operator, so `suggest` returns a stored text whose
tokenization contains none of the supplied terms — the claim fails as
stated for arbitrary terms. -/
theorem suggest_or_containment_cex :
    SearchQuery.suggest simpleEnv exStore2 ["a & b"] 10 0 = .ok ["x a y b"] ∧
      ¬ "a & b" ∈ simpleTok "x a y b" :=
  ⟨rfl, by decide⟩

/-- C2 (amended): for every store state and every non-empty list of terms
each of which is a single plain lexeme (non-empty, no whitespace, no
`tsquery` special character), every string returned by `suggest` is the
text of at least one stored record whose locale-tokenized text contains at
least one of the supplied terms, and each distinct text appears at most
once. -/
theorem suggest_or_containment_of_plain_terms (env : TsSemantics) (store : Store)
    (terms : List String) (limit : Int) (min_score : ℚ) (l : List String)
    (hne : terms ≠ []) (hpl : ∀ t ∈ terms, plainWord t = true)
    (h : SearchQuery.suggest env store terms limit min_score = .ok l) :
    l.Nodup ∧ ∀ q ∈ l, (∃ r ∈ store.records, r.2 = q) ∧ ∃ t ∈ terms, t ∈ env.tok q := by
  obtain ⟨t, ts, rfl⟩ := List.exists_cons_of_ne_nil hne
  have hQ := to_tsquery_join t ts (hpl t (List.mem_cons_self t ts))
    (fun u hu => hpl u (List.mem_cons_of_mem t hu))
  obtain ⟨Q', hQ', _, rfl⟩ := suggest_ok_elim h
  rw [hQ] at hQ'
  injection hQ' with hQ'
  subst hQ'
  constructor
  · unfold suggestList
    have h0 : ((matchedTexts env store (orChain t ts)).map
        (mkSuggestion env store (orChain t ts))).map Suggestion.q
          = matchedTexts env store (orChain t ts) := by
      rw [List.map_map]
      exact List.map_id'' (fun x => rfl) _
    have hperm := (rankedEntries_perm env store (orChain t ts)).map Suggestion.q
    rw [h0] at hperm
    have hnd : ((rankedEntries env store (orChain t ts)).map Suggestion.q).Nodup :=
      hperm.symm.nodup (List.nodup_dedup _)
    exact List.Sublist.nodup
      (List.Sublist.map Suggestion.q
        ((List.take_sublist _ _).trans (List.filter_sublist _))) hnd
  · intro q hq
    obtain ⟨hqm, _⟩ := mem_suggestList_elim hq
    rw [mem_matchedTexts] at hqm
    exact ⟨hqm.1, (tsMatch_orChain (env.tok q) ts t).mp hqm.2⟩

theorem suggest_or_containment_witness :
    (["cat dog", "cat fish"] : List String).Nodup :=
  (suggest_or_containment_of_plain_terms simpleEnv exStore ["cat"] 10 0
    ["cat dog", "cat fish"] (by decide) (by decide) rfl).1

/-- C4 counterexample: with terms that do not form a valid text-search
query (here a lone `"("`), `suggest` with limit 0 raises a storage error
instead of returning the empty list, so the claim fails as stated for every
list of terms. -/
theorem suggest_limit_zero_cex :
    SearchQuery.suggest simpleEnv exStore ["("] 0 0 = .error SuggestError.persistence ∧
      SearchQuery.suggest simpleEnv exStore ["("] 0 0 ≠ .ok [] :=
  ⟨rfl, by decide⟩

/-- C4 (amended): for every store state, terms, and integers `0 ≤ N ≤ M`,
whenever `suggest` with limit `N` returns a list it has at most `N`
entries, with `N = 0` that list is empty, and it is the length-`N` prefix
of the list returned with the larger limit `M` (truncation preserves the
rank/count order); with invalid terms the call errors instead of returning
a list. -/
theorem suggest_limit_bound (env : TsSemantics) (store : Store) (terms : List String)
    (min_score : ℚ) (N M : Int) (l l₂ : List String)
    (hNM : N ≤ M)
    (h : SearchQuery.suggest env store terms N min_score = .ok l)
    (h₂ : SearchQuery.suggest env store terms M min_score = .ok l₂) :
    l.length ≤ N.toNat ∧ (N = 0 → l = []) ∧ l = l₂.take N.toNat := by
  obtain ⟨Q, hQ, _, rfl⟩ := suggest_ok_elim h
  obtain ⟨Q₂, hQ₂, _, rfl⟩ := suggest_ok_elim h₂
  rw [hQ] at hQ₂
  injection hQ₂ with hQ₂
  subst hQ₂
  refine ⟨?_, ?_, ?_⟩
  · unfold suggestList
    rw [List.length_map]
    exact List.length_take_le _ _
  · rintro rfl
    unfold suggestList
    simp
  · unfold suggestList
    rw [← List.map_take, List.take_take,
      Nat.min_eq_left (Int.toNat_le_toNat hNM)]

theorem suggest_limit_bound_witness :
    (["cat dog"] : List String) = List.take (Int.toNat 1) ["cat dog", "cat fish"] :=
  (suggest_limit_bound simpleEnv exStore ["cat"] 0 1 10 ["cat dog"]
    ["cat dog", "cat fish"] (by decide) rfl rfl).2.2

/-- C5 counterexample: on a store with records, `suggest` with an empty
terms list yields a storage error (the empty string is not a valid
text-search query), not the empty list. -/
theorem suggest_empty_terms_cex :
    SearchQuery.suggest simpleEnv exStore [] 10 0 = .error SuggestError.persistence ∧
      SearchQuery.suggest simpleEnv exStore [] 10 0 ≠ .ok [] :=
  ⟨rfl, by decide⟩

/-- C5 (amended): for every store state, limit and min_score, calling
`suggest` with an empty terms list fails with a storage-level error — the
joined term string is empty and the text-search query parser rejects it —
rather than returning the empty list. -/
theorem suggest_empty_terms_error (env : TsSemantics) (store : Store)
    (limit : Int) (min_score : ℚ) :
    SearchQuery.suggest env store [] limit min_score = .error SuggestError.persistence :=
  rfl

/-- C6: the code does not escape or neutralize `tsquery` special characters
in the supplied terms: `' | '.join` passes them through verbatim, so a `&`
inside a term is parsed as the AND operator (matching texts that contain no
supplied term literally) and an unbalanced parenthesis makes the query
malformed and the statement fail. -/
theorem suggest_no_escaping_bug :
    joinTerms ["a & b"] = "a & b" ∧
      to_tsquery "a & b" = .ok (.and (.atom "a") (.atom "b")) ∧
      to_tsquery (joinTerms [")"]) = .error () ∧
      SearchQuery.suggest simpleEnv exStore6 ["a & b"] 10 0 = .ok ["a b"] ∧
      ¬ "a & b" ∈ simpleTok "a b" :=
  ⟨rfl, rfl, rfl, rfl, by decide⟩

/-- C7 counterexample: a negative limit is not rejected with a
`validation` error before the statement runs; the call fails with the
storage-level `persistence` error raised while the statement executes. -/
theorem suggest_negative_limit_cex :
    SearchQuery.suggest simpleEnv exStore ["dog"] (-1) 0
        ≠ .error SuggestError.validation ∧
      SearchQuery.suggest simpleEnv exStore ["dog"] (-1) 0
        = .error SuggestError.persistence :=
  ⟨by decide, rfl⟩

/-- C7 (amended): for every store state, terms and min_score, a negative
limit makes `suggest` fail with a storage-level `persistence` error (the
storage engine rejects a negative LIMIT while executing the statement, and
an invalid term string fails the same way), not with a prior validation
error; the store itself is left untouched. -/
theorem suggest_negative_limit_persistence (env : TsSemantics) (store : Store)
    (terms : List String) (min_score : ℚ) (limit : Int) (h : limit < 0) :
    SearchQuery.suggest env store terms limit min_score
        = .error SuggestError.persistence ∧
      (SearchQuery.suggestOp env store terms limit min_score).2 = store := by
  refine ⟨?_, rfl⟩
  unfold SearchQuery.suggest
  cases to_tsquery (joinTerms terms) with
  | error e => rfl
  | ok Q =>
    show (if limit < 0 then Except.error SuggestError.persistence
      else Except.ok (suggestList env store Q limit min_score)) = _
    rw [if_pos h]

theorem suggest_negative_limit_witness :
    SearchQuery.suggest simpleEnv exStore ["cat"] (-2) 0
        = .error SuggestError.persistence ∧
      (SearchQuery.suggestOp simpleEnv exStore ["cat"] (-2) 0).2 = exStore :=
  suggest_negative_limit_persistence simpleEnv exStore ["cat"] 0 (-2) (by decide)

/-- C8: `create_tables` is idempotent — running it twice leaves the same
store as running it once, the stored records are untouched, the table
exists, and exactly one text-search index is present, keyed by the
currently resolved language. -/
theorem create_tables_idempotent (cfg : Option String) (s : Store) :
    create_tables cfg (create_tables cfg s) = create_tables cfg s ∧
      (create_tables cfg s).records = s.records ∧
      (create_tables cfg s).tsIndex = some (_get_language cfg) ∧
      (create_tables cfg s).tableCreated = true :=
  ⟨rfl, rfl, rfl, rfl⟩

/-- C9: logging is append-only — `SearchQuery.create` appends one record
with the given text and a fresh id, leaving every prior record unchanged;
creating the same text twice appends two distinct records, and the
occurrence count used by `suggest` counts both. -/
theorem create_append_only (s : Store) (q : String) :
    ((SearchQuery.create s q).1).records = s.records ++ [(s.nextId, q)] ∧
      (s.nextId, q) ∈ ((SearchQuery.create s q).1).records ∧
      countOf (SearchQuery.create s q).1 q = countOf s q + 1 ∧
      ((SearchQuery.create (SearchQuery.create s q).1 q).1).records
        = s.records ++ [(s.nextId, q), (s.nextId + 1, q)] ∧
      countOf (SearchQuery.create (SearchQuery.create s q).1 q).1 q
        = countOf s q + 2 := by
  refine ⟨rfl, ?_, ?_, ?_, ?_⟩
  · simp [SearchQuery.create]
  · simp [SearchQuery.create, countOf]
  · simp [SearchQuery.create]
  · simp [SearchQuery.create, countOf]

/-- C10: `suggest` never modifies the store — the statement it executes is
a single `SELECT`, so for every store state and every input the store after
the call (whether it returns a list or fails) is the store before it. -/
theorem suggestOp_preserves_store (env : TsSemantics) (store : Store)
    (terms : List String) (limit : Int) (min_score : ℚ) :
    (SearchQuery.suggestOp env store terms limit min_score).2 = store :=
  rfl
